import Mathlib

/-!
Verification development for the spectral-to-visual synchronization engine of
`main.py` (class `AudioVisualizer`).  Python/numpy floating-point arithmetic
is modelled over `ℚ` for time stamps and bar heights, and over `ℝ` for
spectral magnitudes (which pass through `x ** 0.6` and logarithms).
-/

set_option maxRecDepth 10000

namespace Musializer

/-- `MAX_BARS = 256` (main.py line 13). -/
def MAX_BARS : Nat := 256

/-- `SMOOTHING_FACTOR = 0.88` (main.py line 15). -/
def SMOOTHING_FACTOR : ℚ := 88 / 100

/-- `BAR_PRESETS = [32, 64, 96, 128, 192, 256]` (main.py line 16). -/
def BAR_PRESETS : List Nat := [32, 64, 96, 128, 192, 256]

/-- `np.searchsorted(times, t)` with the default side (left), as called in
`AudioVisualizer.get_current_bars` (main.py line 156): for an ascending
`times` it returns the number of entries strictly below `t`, i.e. the first
index whose entry is `≥ t`. -/
def searchsortedLeft (times : List ℚ) (t : ℚ) : Nat :=
  (times.takeWhile (fun x => x < t)).length

/-- The per-tick frame lookup of `AudioVisualizer.get_current_bars`
(main.py lines 156-157): `idx = np.searchsorted(self.times, pos_ms / 1000.0)`
followed by `idx = min(idx, self.full_spectrogram.shape[1] - 1)`.  The
analysis invariant `shape[1] = len(times)` (both derive from the mel
spectrogram frame count, main.py lines 127-130) is used to express the clamp
through `times.length`. -/
def frameIndex (times : List ℚ) (t : ℚ) : Nat :=
  min (searchsortedLeft times t) (times.length - 1)

theorem length_takeWhile_eq {α : Type} (p : α → Bool) :
    ∀ (l : List α) (k : Nat), k ≤ l.length →
      (∀ j (_ : j < k) (hjl : j < l.length), p (l.get ⟨j, hjl⟩) = true) →
      (∀ (hkl : k < l.length), p (l.get ⟨k, hkl⟩) = false) →
      (l.takeWhile p).length = k := by
  intro l
  induction l with
  | nil =>
    intro k hk _ _
    have hk0 : k = 0 := Nat.le_antisymm (by simpa using hk) (Nat.zero_le k)
    simp [hk0]
  | cons a l ih =>
    intro k hk h1 h2
    match k with
    | 0 =>
      have hpa : p a = false := h2 (Nat.succ_pos _)
      simp [List.takeWhile_cons, hpa]
    | k + 1 =>
      have hpa : p a = true := h1 0 (Nat.succ_pos _) (Nat.succ_pos _)
      rw [List.takeWhile_cons, if_pos hpa]
      simp only [List.length_cons, Nat.succ_eq_add_one, Nat.add_left_inj]
      refine ih k (Nat.le_of_succ_le_succ (by simpa using hk)) ?_ ?_
      · intro j hj hjl
        exact h1 (j + 1) (Nat.succ_lt_succ hj) (Nat.succ_lt_succ hjl)
      · intro hkl
        exact h2 (Nat.succ_lt_succ hkl)

/-- One per-bar step of `AudioVisualizer.update_animation` (main.py lines
186-193):
`diff = target - self.bar_heights[i]`,
`self.bar_heights[i] += diff * (1 - SMOOTHING_FACTOR)`, and then
`if abs(diff) < 0.5 and target < 1: self.bar_heights[i] = 0`. -/
def update_bar (height target : ℚ) : ℚ :=
  let diff := target - height
  let eased := height + diff * (1 - SMOOTHING_FACTOR)
  if |diff| < 1/2 ∧ target < 1 then 0 else eased

/-- Bar height after `n` ticks of the `update_animation` step against the
constant target `c`, starting from height `0`. -/
def heightsConst (c : ℚ) (n : Nat) : ℚ :=
  (fun h => update_bar h c)^[n] 0

/-- The renderer-side quiescence test of `AudioVisualizer.draw_spectrum`
(main.py lines 332-335): a bar with `bar_h < 0.5` is skipped (`continue`),
i.e. nothing is drawn for it; otherwise it is drawn at its stored height. -/
def renderedBar (bar_h : ℚ) : Option ℚ :=
  if bar_h < 1/2 then none else some bar_h

theorem update_bar_of_not_snap (height target : ℚ)
    (h : ¬ (|target - height| < 1/2 ∧ target < 1)) :
    update_bar height target = height + (target - height) * (1 - SMOOTHING_FACTOR) := by
  simp only [update_bar, if_neg h]

theorem heightsConst_succ (c : ℚ) (n : Nat) :
    heightsConst c (n + 1) = update_bar (heightsConst c n) c := by
  simp only [heightsConst, Function.iterate_succ_apply']

theorem heightsConst_closed (c : ℚ) (hc : 1 ≤ c) (n : Nat) :
    heightsConst c n = c - c * (88 / 100) ^ n := by
  induction n with
  | zero => simp [heightsConst]
  | succ n ih =>
    have hcond : ¬ (|c - heightsConst c n| < 1/2 ∧ c < 1) := by
      rintro ⟨-, h1⟩; linarith
    rw [heightsConst_succ, update_bar_of_not_snap _ _ hcond, ih,
      SMOOTHING_FACTOR]
    ring

theorem pow_88_100_le (n : Nat) (hn : 37 ≤ n) :
    ((88 : ℚ) / 100) ^ n ≤ 1 / 100 := by
  have h37 : ((88 : ℚ) / 100) ^ 37 ≤ 1 / 100 := by norm_num
  have hmono : ((88 : ℚ) / 100) ^ n ≤ ((88 : ℚ) / 100) ^ 37 :=
    pow_le_pow_of_le_one (by norm_num) (by norm_num) hn
  linarith

theorem heightsConst_two_fifths (n : Nat) : heightsConst (2/5) n = 0 := by
  induction n with
  | zero => simp [heightsConst]
  | succ n ih =>
    have hsnap : |(2/5 : ℚ) - 0| < 1/2 ∧ (2/5 : ℚ) < 1 := by
      refine ⟨abs_lt.mpr ⟨by norm_num, by norm_num⟩, by norm_num⟩
    rw [heightsConst_succ, ih]
    simp only [update_bar, if_pos hsnap]

/-- C2 counterexample: for the constant target sequence `2/5` (a target below
the snap threshold `target < 1`), the per-tick update pins the height at `0`
forever, so the height never comes within 1% of the target: the claim's
universal quantification over constant target sequences fails. -/
theorem smoothing_convergence_counterexample :
    ¬ ∃ N : Nat, ∀ n : Nat, N ≤ n →
      |heightsConst (2/5) n - 2/5| ≤ (1/100) * (2/5) := by
  rintro ⟨N, hN⟩
  have h := hN N le_rfl
  rw [heightsConst_two_fifths N, zero_sub, abs_neg,
    abs_of_nonneg (by norm_num : (0:ℚ) ≤ 2/5)] at h
  norm_num at h

/-- C2 (amended): for every constant target `c ≥ 1` (in particular the
spec's example `c = 100`), starting from height `0`, the per-tick smoothing
update converges to within 1% of the target within 37 ticks (a bounded,
deterministic count, uniform in `c`), and the height never exceeds the
target times the overshoot bound `1`. -/
theorem smoothing_convergence_amended (c : ℚ) (hc : 1 ≤ c) :
    (∀ n : Nat, heightsConst c n ≤ c * 1) ∧
    (∀ n : Nat, 37 ≤ n → |heightsConst c n - c| ≤ (1/100) * c) := by
  constructor
  · intro n
    rw [heightsConst_closed c hc n, mul_one]
    have hq : (0:ℚ) ≤ c * (88 / 100) ^ n := by positivity
    linarith
  · intro n hn
    rw [heightsConst_closed c hc n]
    have hq : (0:ℚ) ≤ c * (88 / 100) ^ n := by positivity
    rw [show c - c * (88 / 100) ^ n - c = -(c * (88 / 100) ^ n) by ring,
      abs_neg, abs_of_nonneg hq]
    have := pow_88_100_le n hn
    have hc0 : (0:ℚ) ≤ c := by linarith
    nlinarith

/-- Witness for C2 (amended) at the spec's test input `c = 100`, `n = 37`. -/
theorem smoothing_convergence_amended_witness :
    heightsConst 100 37 ≤ 100 * 1 ∧ |heightsConst 100 37 - 100| ≤ (1/100) * 100 :=
  ⟨(smoothing_convergence_amended 100 (by norm_num)).1 37,
   (smoothing_convergence_amended 100 (by norm_num)).2 37 (by norm_num)⟩

/-- C5 counterexample: at height `2/5` with target `0`, the per-tick update
force-resets the internal height to exactly `0`, although the natural easing
decay would leave the nonzero value `2/5 + (0 - 2/5) * (1 - 0.88)`: the
claim that the internal state is never force-reset to zero is false. -/
theorem quiescence_counterexample :
    update_bar (2/5) 0 = 0 ∧
    (2/5 : ℚ) + (0 - 2/5) * (1 - SMOOTHING_FACTOR) ≠ 0 := by
  constructor
  · have hsnap : |(0 : ℚ) - 2/5| < 1/2 ∧ (0 : ℚ) < 1 := by
      refine ⟨abs_lt.mpr ⟨by norm_num, by norm_num⟩, by norm_num⟩
    simp only [update_bar, if_pos hsnap]
  · rw [SMOOTHING_FACTOR]; norm_num

/-- C5 (amended): when the distance to the target is below `0.5` and the
target is below `1`, the per-tick update force-resets the bar's internal
height to exactly `0` (a snap, not a natural decay); independently, the
renderer skips (draws nothing for) every bar whose stored height is below
`0.5`, leaving the stored state untouched. -/
theorem quiescence_amended :
    (∀ height target : ℚ, |target - height| < 1/2 → target < 1 →
      update_bar height target = 0) ∧
    (∀ bar_h : ℚ, bar_h < 1/2 → renderedBar bar_h = none) := by
  constructor
  · intro height target h1 h2
    simp only [update_bar, if_pos (And.intro h1 h2)]
  · intro bar_h h
    simp only [renderedBar, if_pos h]

/-- Witness for C5 (amended) at height `1/4`, target `1/2`, and a rendered
height of `1/4`. -/
theorem quiescence_amended_witness :
    update_bar (1/4) (1/2) = 0 ∧ renderedBar (1/4) = none :=
  ⟨quiescence_amended.1 (1/4) (1/2)
      (abs_lt.mpr ⟨by norm_num, by norm_num⟩) (by norm_num),
   quiescence_amended.2 (1/4) (by norm_num)⟩

theorem searchsortedLeft_eq (times : List ℚ) (t : ℚ) (k : Nat)
    (hk : k ≤ times.length)
    (h1 : ∀ j (_ : j < k) (hjl : j < times.length), times.get ⟨j, hjl⟩ < t)
    (h2 : ∀ (hkl : k < times.length), ¬ times.get ⟨k, hkl⟩ < t) :
    searchsortedLeft times t = k := by
  refine length_takeWhile_eq _ times k hk ?_ ?_
  · intro j hj hjl
    exact decide_eq_true (h1 j hj hjl)
  · intro hkl
    exact decide_eq_false (h2 hkl)

/-- C1 counterexample: for the ascending timestamps `[0, 1, 2]` and the
playback time `t = 1/2` strictly between the first two timestamps, the
lookup (`np.searchsorted` + clamp) returns index `1` — the later frame,
whose timestamp `1` exceeds `t` — not the frame with the greatest
timestamp `≤ t` (index `0`). -/
theorem frame_lookup_counterexample :
    frameIndex [0, 1, 2] (1/2) = 1 ∧ (0:ℚ) < 1/2 ∧ (1/2:ℚ) < 1 := by
  refine ⟨?_, by norm_num, by norm_num⟩
  norm_num [frameIndex, searchsortedLeft, List.takeWhile_cons]

/-- C1 (amended): for ascending timestamps the lookup returns the frame with
the smallest timestamp `≥ t`, clamped to the last frame: for `t` in the
half-open span between a timestamp and its successor it returns the later
index `i + 1`; for `t ≤` the first timestamp it returns the first frame; for
`t` exceeding the last timestamp it returns the last frame. -/
theorem frame_lookup_amended (times : List ℚ) (t : ℚ)
    (hs : times.Sorted (· < ·)) :
    (∀ i (hi : i + 1 < times.length),
        times.get ⟨i, Nat.lt_of_succ_lt hi⟩ < t →
        t ≤ times.get ⟨i + 1, hi⟩ →
        frameIndex times t = i + 1) ∧
    (∀ (h0 : 0 < times.length), t ≤ times.get ⟨0, h0⟩ →
        frameIndex times t = 0) ∧
    (∀ (h0 : 0 < times.length),
        times.get ⟨times.length - 1, Nat.sub_lt h0 Nat.one_pos⟩ < t →
        frameIndex times t = times.length - 1) := by
  refine ⟨?_, ?_, ?_⟩
  · intro i hi hlt hle
    have hss : searchsortedLeft times t = i + 1 := by
      refine searchsortedLeft_eq times t (i + 1) (Nat.le_of_lt hi) ?_ ?_
      · intro j hj hjl
        rcases Nat.lt_succ_iff_lt_or_eq.mp hj with hji | hji
        · exact lt_trans
            (hs.rel_get_of_lt (Fin.mk_lt_mk.mpr hji)) hlt
        · subst hji
          exact hlt
      · intro hkl
        exact not_lt.mpr hle
    rw [frameIndex, hss]
    exact Nat.min_eq_left (Nat.le_sub_one_of_lt hi)
  · intro h0 hle
    have hss : searchsortedLeft times t = 0 := by
      refine searchsortedLeft_eq times t 0 (Nat.zero_le _) ?_ ?_
      · intro j hj _
        exact absurd hj (Nat.not_lt_zero j)
      · intro hkl
        exact not_lt.mpr hle
    rw [frameIndex, hss]
    exact Nat.min_eq_left (Nat.zero_le _)
  · intro h0 hlt
    have hss : searchsortedLeft times t = times.length := by
      refine searchsortedLeft_eq times t times.length le_rfl ?_ ?_
      · intro j hj hjl
        rcases Nat.lt_or_ge j (times.length - 1) with hjlast | hjlast
        · exact lt_trans
            (hs.rel_get_of_lt (Fin.mk_lt_mk.mpr hjlast)) hlt
        · have hje : j = times.length - 1 :=
            Nat.le_antisymm (Nat.le_sub_one_of_lt hjl) hjlast
          subst hje
          exact hlt
      · intro hkl
        exact absurd hkl (lt_irrefl _)
    rw [frameIndex, hss]
    exact Nat.min_eq_right (Nat.sub_le _ _)

/-- Witness for C1 (amended) on `times = [0, 1, 2]`: a time in the middle of
the track, a time before the first timestamp, and a time past the end. -/
theorem frame_lookup_amended_witness :
    frameIndex [0, 1, 2] (3/2) = 2 ∧ frameIndex [0, 1, 2] (-1) = 0 ∧
    frameIndex [0, 1, 2] 100 = 2 := by
  have hs : ([(0:ℚ), 1, 2]).Sorted (· < ·) := by decide
  refine ⟨?_, ?_, ?_⟩
  · exact (frame_lookup_amended [0, 1, 2] (3/2) hs).1 1 (by norm_num)
      (by norm_num) (by norm_num)
  · exact (frame_lookup_amended [0, 1, 2] (-1) hs).2.1 (by norm_num)
      (by norm_num)
  · exact (frame_lookup_amended [0, 1, 2] 100 hs).2.2 (by norm_num)
      (by norm_num)

/-- Result of a successful run of the analysis pipeline inside
`AudioVisualizer._analyze_audio` (main.py lines 115-130): the duration from
`librosa.get_duration`, the dB mel spectrogram (stored frame-major: entry
`idx` is the column `full_spectrogram[:, idx]`), and the frame timestamps
from `librosa.frames_to_time`. -/
structure AnalysisResult where
  duration : ℚ
  spectrogram : List (List ℝ)
  times : List ℚ

/-- The engine state of `AudioVisualizer` (main.py lines 50-65): playlist
paths, current index (`-1` when nothing selected), the analyzing flag, the
active bar count, the published analysis (`full_spectrogram`/`times`, `none`
before the first load), duration, and the animation arrays.
`analyzing_path` records the argument of the in-flight `_analyze_audio`
worker thread (`none` when no analysis is in flight). -/
structure VizState where
  playlist : List String
  current_index : Int
  is_analyzing : Bool
  active_bars : Nat
  full_spectrogram : Option (List (List ℝ))
  times : List ℚ
  current_duration : ℚ
  bar_heights : List ℚ
  target_heights : List ℚ
  analyzing_path : Option String

/-- The state built by `AudioVisualizer.__init__` (main.py lines 50-65):
empty playlist, `current_index = -1`, `active_bars = 96`, no spectrogram,
and `np.zeros(MAX_BARS)` height arrays. -/
def initState : VizState where
  playlist := []
  current_index := -1
  is_analyzing := false
  active_bars := 96
  full_spectrogram := none
  times := []
  current_duration := 0
  bar_heights := List.replicate MAX_BARS 0
  target_heights := List.replicate MAX_BARS 0
  analyzing_path := none

/-- `AudioVisualizer.load_file_threaded` (main.py lines 101-107): if an
analysis is already in flight the call returns immediately (the new request
is dropped); otherwise the analyzing flag is set and a worker thread running
`_analyze_audio(path)` is started. -/
def loadFileThreaded (s : VizState) (path : String) : VizState :=
  if s.is_analyzing then s
  else { s with is_analyzing := true, analyzing_path := some path }

/-- `AudioVisualizer.play_index` (main.py lines 95-99): for an in-range
index, set `current_index` and submit the track at that index. -/
def playIndex (s : VizState) (index : Int) : VizState :=
  if 0 ≤ index ∧ index < s.playlist.length then
    loadFileThreaded { s with current_index := index }
      (s.playlist.getD index.toNat "")
  else s

/-- The state change of `AudioVisualizer._analyze_audio` (main.py lines
109-144).  The collaborator calls (pygame mixer, `librosa.load`,
`melspectrogram`, `power_to_db`, `frames_to_time`) are abstracted into
`result`.  On success (lines 115-138) the duration, spectrogram and times
are stored and both animation arrays are zero-filled; any exception is
caught, printed, and swallowed (lines 140-142), leaving every engine field
untouched.  Either way `finally` clears the analyzing flag (line 144). -/
def analyzeAudio (s : VizState) (result : Except String AnalysisResult) :
    VizState :=
  match result with
  | .ok d =>
      { s with
        current_duration := d.duration
        full_spectrogram := some d.spectrogram
        times := d.times
        bar_heights := List.replicate MAX_BARS 0
        target_heights := List.replicate MAX_BARS 0
        is_analyzing := false
        analyzing_path := none }
  | .error _ =>
      { s with is_analyzing := false, analyzing_path := none }

/-- The UP/DOWN key events handled in `AudioVisualizer.run` (main.py lines
550-570). -/
inductive BarKey where
  | up
  | down

/-- The K_UP/K_DOWN handlers (main.py lines 550-570): look up the current
bar count in `BAR_PRESETS` (falling back to the first preset for UP and the
last for DOWN when absent), move one preset up or down when possible, and
zero both animation arrays on a change. -/
def applyKey (s : VizState) (k : BarKey) : VizState :=
  match k with
  | .up =>
    let idx := if s.active_bars ∈ BAR_PRESETS
      then BAR_PRESETS.indexOf s.active_bars else 0
    if idx < BAR_PRESETS.length - 1 then
      { s with
        active_bars := BAR_PRESETS.getD (idx + 1) 0
        bar_heights := List.replicate MAX_BARS 0
        target_heights := List.replicate MAX_BARS 0 }
    else s
  | .down =>
    let idx := if s.active_bars ∈ BAR_PRESETS
      then BAR_PRESETS.indexOf s.active_bars else BAR_PRESETS.length - 1
    if 0 < idx then
      { s with
        active_bars := BAR_PRESETS.getD (idx - 1) 0
        bar_heights := List.replicate MAX_BARS 0
        target_heights := List.replicate MAX_BARS 0 }
    else s

/-- A sequence of UP/DOWN key events applied in order. -/
def runKeys (s : VizState) (ks : List BarKey) : VizState :=
  ks.foldl applyKey s

/-- C4: for every prior engine state, a completed track load (successful
`_analyze_audio`) leaves both per-bar animation arrays (heights and target
heights) all-zero and the analyzing flag cleared, so the new track's first
post-analysis tick starts from all-zero bar state.  This variant keeps no
adaptive-normalization energy history (normalization is the fixed
`-80..0 dB` window), so there is no further animation state to reset. -/
theorem load_resets_animation (s : VizState) (d : AnalysisResult) :
    (analyzeAudio s (Except.ok d)).bar_heights = List.replicate MAX_BARS 0 ∧
    (analyzeAudio s (Except.ok d)).target_heights = List.replicate MAX_BARS 0 ∧
    (analyzeAudio s (Except.ok d)).is_analyzing = false :=
  ⟨rfl, rfl, rfl⟩

/-- C6 counterexample: at a concrete prior state holding a loaded analysis,
a failing analysis (e.g. for an empty sample buffer) is swallowed: the
worker catches the exception and returns normally, the engine keeps the
previous track's analysis (it does not transition to the no-analysis state),
and no error value reaches the caller. -/
theorem analysis_error_counterexample :
    (analyzeAudio { initState with full_spectrogram := some [[0]] }
      (Except.error "DecodeError: empty sample buffer")).full_spectrogram
        = some [[0]] ∧
    (analyzeAudio { initState with full_spectrogram := some [[0]] }
      (Except.error "DecodeError: empty sample buffer")).full_spectrogram
        ≠ none := by
  refine ⟨rfl, ?_⟩
  simp [analyzeAudio]

/-- C6 (amended): every analysis failure — including the empty-sample-buffer
case — is caught inside the worker, printed, and swallowed: the engine state
is unchanged except that the analyzing flag (and in-flight path) is cleared.
In particular no `Analysis` is produced for the failed track, but the
failure is not surfaced and the engine keeps whatever analysis it had. -/
theorem analysis_error_amended (s : VizState) (e : String) :
    analyzeAudio s (Except.error e) =
      { s with is_analyzing := false, analyzing_path := none } :=
  rfl

/-- C9 counterexample: with playlist `["A", "B"]`, submitting track `B`
while the analysis of track `A` is in flight leaves the in-flight analysis
at `A`: the later submission is dropped (`load_file_threaded` returns
immediately when `is_analyzing`), contradicting last-submitted-wins. -/
theorem second_submission_counterexample :
    (playIndex (playIndex { initState with playlist := ["A", "B"] } 0) 1).analyzing_path
      = some "A" ∧
    (playIndex (playIndex { initState with playlist := ["A", "B"] } 0) 1).analyzing_path
      ≠ some "B" ∧
    (playIndex (playIndex { initState with playlist := ["A", "B"] } 0) 1).is_analyzing
      = true := by
  refine ⟨rfl, fun h => ?_, rfl⟩
  have h2 : some "A" = some "B" := h
  simp at h2

/-- C9 (amended): a track submitted while an analysis is in flight is
ignored (first-submitted-wins): `load_file_threaded` returns with the state
unchanged, so the in-flight track's analysis proceeds and the later request
is dropped. -/
theorem second_submission_amended (s : VizState) (path : String)
    (h : s.is_analyzing = true) :
    loadFileThreaded s path = s := by
  simp [loadFileThreaded, h]

/-- Witness for C9 (amended): submitting `"B"` in a concrete analyzing
state changes nothing. -/
theorem second_submission_amended_witness :
    loadFileThreaded { initState with is_analyzing := true } "B" =
      { initState with is_analyzing := true } :=
  second_submission_amended { initState with is_analyzing := true } "B" rfl

/-- The per-value normalization of `AudioVisualizer.get_current_bars`
(main.py lines 160-161): `np.clip((v - (-80)) / 80, 0, 1)` followed by
`np.power(·, 0.6)` (`np.clip(x, lo, hi)` is `min(hi, max(lo, x))`; the
float power is modelled by the real power `Real.rpow`). -/
noncomputable def normVal (v : ℝ) : ℝ :=
  (min 1 (max 0 ((v - (-80)) / 80))) ^ ((6 : ℝ) / 10)

/-- The frame normalization of lines 160-161 applied bin-wise. -/
noncomputable def normFrame (full_frame : List ℝ) : List ℝ :=
  full_frame.map normVal

/-- The bins matched to visual bar `i` by the downsampling slice of
`get_current_bars` (main.py lines 166-171): row `i` of
`frame[: active_bars * bin_size].reshape(active_bars, bin_size)` with
`bin_size = MAX_BARS // active_bars`. -/
noncomputable def matchedBins (frame : List ℝ) (active_bars i : Nat) :
    List ℝ :=
  ((frame.take (active_bars * (MAX_BARS / active_bars))).drop
      (i * (MAX_BARS / active_bars))).take (MAX_BARS / active_bars)

/-- The downsampling step of `get_current_bars` (main.py lines 163-171):
at `active_bars == MAX_BARS` the frame is returned unchanged, otherwise the
sliced frame is reshaped to `(active_bars, bin_size)` and averaged along
axis 1 (`.mean(axis=1)`, i.e. each row's sum divided by `bin_size`). -/
noncomputable def downsample (frame : List ℝ) (active_bars : Nat) :
    List ℝ :=
  if active_bars = MAX_BARS then frame
  else
    (List.range active_bars).map (fun i =>
      (matchedBins frame active_bars i).sum
        / ((MAX_BARS / active_bars : Nat) : ℝ))

/-- `AudioVisualizer.get_current_bars` (main.py lines 146-171) on a loaded
analysis (`full_spectrogram` stored frame-major; the `None` early return of
line 147 corresponds to calling this only with a loaded analysis).  The
`pos_ms < 0` guard of lines 150-154 returns `np.zeros(active_bars)`, which
is the `t < 0` branch here; otherwise the frame at
`min(searchsorted(times, t), frame_count - 1)` is normalized and
downsampled. -/
noncomputable def getCurrentBars (spectrogram : List (List ℝ))
    (times : List ℚ) (active_bars : Nat) (t : ℚ) : List ℝ :=
  if t < 0 then List.replicate active_bars 0
  else
    downsample
      (normFrame (spectrogram.getD
        (min (searchsortedLeft times t) (spectrogram.length - 1)) []))
      active_bars

/-- `amin = 1e-10`, the flooring constant of `librosa.power_to_db`. -/
noncomputable def amin : ℝ := 1 / 10 ^ 10

/-- `top_db = 80.0`, the default dynamic-range limit of
`librosa.power_to_db`. -/
noncomputable def topDb : ℝ := 80

/-- `np.max` over all entries of a matrix, as used for `ref=np.max` in
`power_to_db` and for its `top_db` clamp.  The fold base `0` agrees with
the true maximum on the matrices this development applies it to: mel powers
are nonnegative, and the dB matrix attains `0` at the reference entry. -/
noncomputable def matMax (S : List (List ℝ)) : ℝ :=
  (S.map (fun row => row.foldr max 0)).foldr max 0

/-- `librosa.power_to_db(S, ref=np.max)` as called in `_analyze_audio`
(main.py line 127): per entry `10*log10(max(amin, x)) -
10*log10(max(amin, ref))` with `ref` the global maximum, then the
`top_db` clamp `max(log_spec, log_spec.max() - top_db)`. -/
noncomputable def powerToDb (S : List (List ℝ)) : List (List ℝ) :=
  let ref := matMax S
  let logSpec := S.map (fun row => row.map (fun x =>
    10 * Real.logb 10 (max amin x) - 10 * Real.logb 10 (max amin ref)))
  let peak := matMax logSpec
  logSpec.map (fun row => row.map (fun v => max v (peak - topDb)))

theorem normVal_nonneg (v : ℝ) : 0 ≤ normVal v :=
  Real.rpow_nonneg (le_min zero_le_one (le_max_left 0 _)) _

theorem normVal_le_one (v : ℝ) : normVal v ≤ 1 :=
  Real.rpow_le_one (le_min zero_le_one (le_max_left 0 _))
    (min_le_left 1 _) (by norm_num)

theorem mem_normFrame_bounds (f : List ℝ) (x : ℝ) (hx : x ∈ normFrame f) :
    0 ≤ x ∧ x ≤ 1 := by
  rcases List.mem_map.mp hx with ⟨v, -, rfl⟩
  exact ⟨normVal_nonneg v, normVal_le_one v⟩

theorem mem_of_mem_matchedBins (f : List ℝ) (ab i : Nat) (x : ℝ)
    (hx : x ∈ matchedBins f ab i) : x ∈ f :=
  List.mem_of_mem_take
    (List.mem_of_mem_drop (List.mem_of_mem_take hx))

theorem length_matchedBins_le (f : List ℝ) (ab i : Nat) :
    (matchedBins f ab i).length ≤ MAX_BARS / ab := by
  simp only [matchedBins, List.length_take]
  exact min_le_left _ _

theorem bandMean_bounds (f : List ℝ) (ab i : Nat)
    (hmem : ∀ x ∈ f, 0 ≤ x ∧ x ≤ 1) (hbs : 0 < MAX_BARS / ab) :
    0 ≤ (matchedBins f ab i).sum / ((MAX_BARS / ab : Nat) : ℝ) ∧
    (matchedBins f ab i).sum / ((MAX_BARS / ab : Nat) : ℝ) ≤ 1 := by
  have hbsR : (0 : ℝ) < ((MAX_BARS / ab : Nat) : ℝ) := by
    exact_mod_cast hbs
  have hsum0 : 0 ≤ (matchedBins f ab i).sum :=
    List.sum_nonneg (fun a ha =>
      (hmem a (mem_of_mem_matchedBins f ab i a ha)).1)
  have hsum1 : (matchedBins f ab i).sum ≤ ((MAX_BARS / ab : Nat) : ℝ) := by
    have h1 : (matchedBins f ab i).sum ≤
        (matchedBins f ab i).length • (1 : ℝ) :=
      List.sum_le_card_nsmul _ 1 (fun a ha =>
        (hmem a (mem_of_mem_matchedBins f ab i a ha)).2)
    have h2 : ((matchedBins f ab i).length • (1 : ℝ)) =
        ((matchedBins f ab i).length : ℝ) := by
      rw [nsmul_eq_mul, mul_one]
    have h3 : (((matchedBins f ab i).length : ℕ) : ℝ) ≤
        ((MAX_BARS / ab : Nat) : ℝ) := by
      exact_mod_cast length_matchedBins_le f ab i
    calc (matchedBins f ab i).sum ≤ _ := h1
      _ = _ := h2
      _ ≤ _ := h3
  exact ⟨div_nonneg hsum0 hbsR.le, (div_le_one hbsR).mpr hsum1⟩

theorem downsample_length (f : List ℝ) (ab : Nat)
    (hlen : f.length = MAX_BARS) : (downsample f ab).length = ab := by
  by_cases hab : ab = MAX_BARS
  · simp [downsample, hab, hlen]
  · simp [downsample, hab]

theorem downsample_bounds (f : List ℝ) (ab : Nat)
    (hmem : ∀ x ∈ f, 0 ≤ x ∧ x ≤ 1) (hbs : 0 < MAX_BARS / ab) :
    ∀ x ∈ downsample f ab, 0 ≤ x ∧ x ≤ 1 := by
  intro x hx
  by_cases hab : ab = MAX_BARS
  · rw [downsample, if_pos hab] at hx
    exact hmem x hx
  · rw [downsample, if_neg hab] at hx
    rcases List.mem_map.mp hx with ⟨i, -, rfl⟩
    exact bandMean_bounds f ab i hmem hbs

theorem presets_bin_size_pos (ab : Nat) (hab : ab ∈ BAR_PRESETS) :
    0 < MAX_BARS / ab := by
  fin_cases hab <;> decide

/-- C3: on a loaded analysis (nonempty frame sequence, every frame holding
`MAX_BARS` bins) and any active bar count from the presets, the per-tick
aggregation returns exactly `active_bars` energies and every energy lies in
`[0, 1]` (hence in the claim's `[0, 1 + ε]`). -/
theorem band_aggregation_bounded (spectrogram : List (List ℝ))
    (times : List ℚ) (active_bars : Nat) (t : ℚ)
    (hab : active_bars ∈ BAR_PRESETS)
    (hne : spectrogram ≠ [])
    (hframes : ∀ f ∈ spectrogram, f.length = MAX_BARS) :
    (getCurrentBars spectrogram times active_bars t).length = active_bars ∧
    (∀ x ∈ getCurrentBars spectrogram times active_bars t,
      0 ≤ x ∧ x ≤ 1) := by
  by_cases ht : t < 0
  · constructor
    · simp [getCurrentBars, ht]
    · intro x hx
      rw [getCurrentBars, if_pos ht] at hx
      have := List.eq_of_mem_replicate hx
      subst this
      norm_num
  · have hidx : min (searchsortedLeft times t) (spectrogram.length - 1)
        < spectrogram.length :=
      Nat.lt_of_le_of_lt (min_le_right _ _)
        (Nat.sub_lt (List.length_pos.mpr hne) Nat.one_pos)
    have hget : spectrogram.getD
        (min (searchsortedLeft times t) (spectrogram.length - 1)) []
          ∈ spectrogram := by
      rw [List.getD_eq_getElem _ _ hidx]
      exact List.getElem_mem hidx
    have hflen : (normFrame (spectrogram.getD
        (min (searchsortedLeft times t) (spectrogram.length - 1)) [])).length
          = MAX_BARS := by
      rw [normFrame, List.length_map]
      exact hframes _ hget
    constructor
    · rw [getCurrentBars, if_neg ht]
      exact downsample_length _ _ hflen
    · intro x hx
      rw [getCurrentBars, if_neg ht] at hx
      exact downsample_bounds _ _
        (fun y hy => mem_normFrame_bounds _ y hy)
        (presets_bin_size_pos _ hab) x hx

/-- Witness for C3 on a one-frame all-zero-dB analysis with 32 bars. -/
theorem band_aggregation_bounded_witness :
    (getCurrentBars [List.replicate MAX_BARS (0:ℝ)] [0] 32 0).length = 32 ∧
    (∀ x ∈ getCurrentBars [List.replicate MAX_BARS (0:ℝ)] [0] 32 0,
      0 ≤ x ∧ x ≤ 1) :=
  band_aggregation_bounded _ _ _ _ (by decide) (by simp) (by simp)

theorem foldr_max_replicate_zero (n : Nat) :
    (List.replicate n (0:ℝ)).foldr max 0 = 0 := by
  induction n with
  | zero => rfl
  | succ n ih => simp [List.replicate_succ, ih]

theorem matMax_silent (nf : Nat) :
    matMax (List.replicate nf (List.replicate MAX_BARS (0:ℝ))) = 0 := by
  simp [matMax, List.map_replicate, foldr_max_replicate_zero]

theorem powerToDb_silent (nf : Nat) :
    powerToDb (List.replicate nf (List.replicate MAX_BARS (0:ℝ)))
      = List.replicate nf (List.replicate MAX_BARS 0) := by
  have hclamp : max (0:ℝ) (0 - topDb) = 0 := by
    rw [topDb]
    exact max_eq_left (by norm_num)
  simp only [powerToDb, matMax_silent, List.map_replicate, sub_self,
    hclamp]

theorem getD_replicate {α : Type} (d a : α) (nf i : Nat) (hi : i < nf) :
    (List.replicate nf a).getD i d = a := by
  rw [List.getD_eq_getElem _ _ (by simpa using hi)]
  exact List.getElem_replicate _ _

theorem normVal_zero : normVal 0 = 1 := by
  rw [normVal]
  have h1 : ((0:ℝ) - (-80)) / 80 = 1 := by norm_num
  rw [h1, max_eq_right zero_le_one, min_self, Real.one_rpow]

theorem normFrame_silent :
    normFrame (List.replicate MAX_BARS (0:ℝ)) =
      List.replicate MAX_BARS 1 := by
  simp [normFrame, List.map_replicate, normVal_zero]

theorem matchedBins_replicate_one (ab i : Nat) (hab : ab ∈ BAR_PRESETS)
    (hi : i < ab) :
    matchedBins (List.replicate MAX_BARS (1:ℝ)) ab i =
      List.replicate (MAX_BARS / ab) 1 := by
  rw [matchedBins, List.take_replicate, List.drop_replicate,
    List.take_replicate]
  congr 1
  fin_cases hab <;> simp [MAX_BARS] <;> omega

theorem sum_replicate_one (n : Nat) :
    (List.replicate n (1:ℝ)).sum = n := by
  rw [List.sum_replicate, nsmul_eq_mul, mul_one]

theorem downsample_ones (ab : Nat) (hab : ab ∈ BAR_PRESETS) :
    downsample (List.replicate MAX_BARS (1:ℝ)) ab =
      List.replicate ab 1 := by
  by_cases h256 : ab = MAX_BARS
  · rw [downsample, if_pos h256, h256]
  · rw [downsample, if_neg h256]
    refine List.eq_replicate_iff.mpr ⟨by simp, ?_⟩
    intro b hb
    rcases List.mem_map.mp hb with ⟨i, hi, rfl⟩
    have hiab : i < ab := List.mem_range.mp hi
    rw [matchedBins_replicate_one ab i hab hiab, sum_replicate_one]
    exact div_self
      (by exact_mod_cast (presets_bin_size_pos ab hab).ne')

theorem getCurrentBars_silentDb (nf ab : Nat) (times : List ℚ) (t : ℚ)
    (hnf : 0 < nf) (hab : ab ∈ BAR_PRESETS) (ht : 0 ≤ t) :
    getCurrentBars (List.replicate nf (List.replicate MAX_BARS (0:ℝ)))
      times ab t = List.replicate ab 1 := by
  rw [getCurrentBars, if_neg (not_lt.mpr ht)]
  have hidx : min (searchsortedLeft times t)
      ((List.replicate nf (List.replicate MAX_BARS (0:ℝ))).length - 1)
        < nf := by
    rw [List.length_replicate]
    exact Nat.lt_of_le_of_lt (min_le_right _ _) (Nat.sub_lt hnf Nat.one_pos)
  rw [getD_replicate _ _ _ _ hidx, normFrame_silent, downsample_ones ab hab]

/-- C7 counterexample: a one-frame all-zero (silent) mel power matrix runs
through `power_to_db(ref=np.max)` into the all-`0 dB` analysis, and the
per-tick aggregation then yields energy exactly `1` — the full scale, not a
near-zero value — for every one of the 32 bands. -/
theorem silence_counterexample :
    getCurrentBars
      (powerToDb (List.replicate 1 (List.replicate MAX_BARS (0:ℝ))))
      [0] 32 0 = List.replicate 32 1 ∧ ¬ ((1:ℝ) ≤ 1/2) := by
  refine ⟨?_, by norm_num⟩
  rw [powerToDb_silent 1]
  exact getCurrentBars_silentDb 1 32 [0] 0 Nat.one_pos (by decide) le_rfl

/-- C7 (amended): a non-empty all-zero sample buffer (whose mel power
matrix is all-zero) produces a valid analysis with every dB value equal to
`0` — `power_to_db` is referenced to the track maximum with the `amin`
floor, so for silence every entry *is* the reference — and the per-tick
aggregation yields the full-scale energy `1` for every band: finite values,
no division error and no NaN/Inf, but maximal rather than near-zero. -/
theorem silence_amended (nf ab : Nat) (times : List ℚ) (t : ℚ)
    (hnf : 0 < nf) (hab : ab ∈ BAR_PRESETS) (ht : 0 ≤ t) :
    powerToDb (List.replicate nf (List.replicate MAX_BARS (0:ℝ)))
      = List.replicate nf (List.replicate MAX_BARS 0) ∧
    getCurrentBars
      (powerToDb (List.replicate nf (List.replicate MAX_BARS (0:ℝ))))
      times ab t = List.replicate ab 1 := by
  refine ⟨powerToDb_silent nf, ?_⟩
  rw [powerToDb_silent nf]
  exact getCurrentBars_silentDb nf ab times t hnf hab ht

/-- Witness for C7 (amended) on a two-frame silent analysis with 64 bars. -/
theorem silence_amended_witness :
    powerToDb (List.replicate 2 (List.replicate MAX_BARS (0:ℝ)))
      = List.replicate 2 (List.replicate MAX_BARS 0) ∧
    getCurrentBars
      (powerToDb (List.replicate 2 (List.replicate MAX_BARS (0:ℝ))))
      [0, 1] 64 (1/2) = List.replicate 64 1 :=
  silence_amended 2 64 [0, 1] (1/2) (by norm_num) (by decide) (by norm_num)

/-- Following the spec's words for the blend claim: the maximum magnitude
among the bins matched to band `i` (the blend ingredient the spec mandates;
to be compared with the source's `downsample`, which averages). -/
noncomputable def specBandMax (frame : List ℝ) (active_bars i : Nat) : ℝ :=
  (matchedBins frame active_bars i).foldr max 0

theorem matchedBins_two (x y : ℝ) (rest : List ℝ)
    (hrest : rest.length = 254) :
    matchedBins (x :: y :: rest) 128 0 = [x, y] := by
  have h2 : MAX_BARS / 128 = 2 := by norm_num [MAX_BARS]
  rw [matchedBins, h2]
  rw [List.take_of_length_le
    (show (x :: y :: rest).length ≤ 128 * 2 by
      simp only [List.length_cons, hrest]; omega)]
  rfl

theorem downsample_getD_zero_128 (x y : ℝ) (rest : List ℝ)
    (hrest : rest.length = 254) :
    (downsample (x :: y :: rest) 128).getD 0 0 = (x + y) / 2 := by
  rw [downsample, if_neg (by norm_num [MAX_BARS])]
  rw [List.getD_eq_getElem _ _ (by simp)]
  simp only [List.getElem_map, List.getElem_range]
  rw [matchedBins_two x y rest hrest]
  have h2 : ((MAX_BARS / 128 : Nat) : ℝ) = 2 := by norm_num [MAX_BARS]
  rw [h2]
  simp

theorem specBandMax_two (x y : ℝ) (rest : List ℝ)
    (hrest : rest.length = 254) :
    specBandMax (x :: y :: rest) 128 0 = max x (max y 0) := by
  rw [specBandMax, matchedBins_two x y rest hrest]
  rfl

/-- C8 counterexample: the band aggregation depends only on the mean of the
matched bins.  The two concrete frames `[2/5, 2/5, 0, ...]` and
`[0, 4/5, 0, ...]` have the same band-0 mean (`2/5`) but different band-0
maxima (`2/5` vs `4/5`), yet `downsample` gives both the same band value;
hence no weighted combination with nonzero weight on the maximum matches
the code. -/
theorem band_blend_counterexample :
    ¬ ∃ w1 w2 : ℝ, w2 ≠ 0 ∧
      ∀ frame : List ℝ, frame.length = MAX_BARS →
        (downsample frame 128).getD 0 0 =
          w1 * ((matchedBins frame 128 0).sum
              / ((matchedBins frame 128 0).length : ℝ))
            + w2 * specBandMax frame 128 0 := by
  rintro ⟨w1, w2, hw2, hall⟩
  have h1 := hall ((2/5 : ℝ) :: 2/5 :: List.replicate 254 0)
    (by simp [MAX_BARS])
  have h2 := hall ((0 : ℝ) :: 4/5 :: List.replicate 254 0)
    (by simp [MAX_BARS])
  rw [downsample_getD_zero_128 _ _ _ (by simp),
    matchedBins_two _ _ _ (by simp), specBandMax_two _ _ _ (by simp)] at h1
  rw [downsample_getD_zero_128 _ _ _ (by simp),
    matchedBins_two _ _ _ (by simp), specBandMax_two _ _ _ (by simp)] at h2
  have hmax1 : max (2/5 : ℝ) (max (2/5 : ℝ) 0) = 2/5 := by
    rw [max_eq_left (by norm_num : (0:ℝ) ≤ 2/5)]
    exact max_self _
  have hmax2 : max (0 : ℝ) (max (4/5 : ℝ) 0) = 4/5 := by
    rw [max_eq_left (by norm_num : (0:ℝ) ≤ 4/5)]
    exact max_eq_right (by norm_num)
  rw [hmax1] at h1
  rw [hmax2] at h2
  simp only [List.sum_cons, List.sum_nil, List.length_cons,
    List.length_nil] at h1 h2
  norm_num at h1 h2
  exact hw2 (by linarith)

/-- C8 (amended): the raw band value of the per-tick aggregation is the
arithmetic mean alone of the matched bins — their sum divided by their
count — with no contribution from their maximum. -/
theorem band_mean_amended (frame : List ℝ) (ab i : Nat)
    (hab : ab ∈ BAR_PRESETS) (hne : ab ≠ MAX_BARS) (hi : i < ab)
    (hlen : frame.length = MAX_BARS) :
    (downsample frame ab).getD i 0 =
      (matchedBins frame ab i).sum
        / ((matchedBins frame ab i).length : ℝ) := by
  have hlenmb : (matchedBins frame ab i).length = MAX_BARS / ab := by
    rw [matchedBins, List.length_take, List.length_drop, List.length_take,
      hlen]
    fin_cases hab <;> simp [MAX_BARS] at hi ⊢ <;> omega
  rw [downsample, if_neg hne, List.getD_eq_getElem _ _ (by simpa using hi)]
  simp only [List.getElem_map, List.getElem_range]
  rw [hlenmb]

/-- Witness for C8 (amended) on the frame `[0, 4/5, 0, ...]` at 128 bars,
band 0. -/
theorem band_mean_amended_witness :
    (downsample ((0:ℝ) :: 4/5 :: List.replicate 254 0) 128).getD 0 0 =
      (matchedBins ((0:ℝ) :: 4/5 :: List.replicate 254 0) 128 0).sum
        / ((matchedBins ((0:ℝ) :: 4/5 :: List.replicate 254 0) 128 0).length
            : ℝ) :=
  band_mean_amended _ 128 0 (by decide) (by decide) (by norm_num)
    (by simp [MAX_BARS])

/-- The bar-count computation of the K_UP/K_DOWN handlers in isolation
(the `active_bars` assignment of main.py lines 550-570). -/
def nextBars (ab : Nat) : BarKey → Nat
  | .up =>
    let idx := if ab ∈ BAR_PRESETS then BAR_PRESETS.indexOf ab else 0
    if idx < BAR_PRESETS.length - 1 then BAR_PRESETS.getD (idx + 1) 0 else ab
  | .down =>
    let idx := if ab ∈ BAR_PRESETS then BAR_PRESETS.indexOf ab
      else BAR_PRESETS.length - 1
    if 0 < idx then BAR_PRESETS.getD (idx - 1) 0 else ab

theorem applyKey_active_bars (s : VizState) (k : BarKey) :
    (applyKey s k).active_bars = nextBars s.active_bars k := by
  cases k with
  | up =>
    by_cases hc : (if s.active_bars ∈ BAR_PRESETS
        then BAR_PRESETS.indexOf s.active_bars else 0)
          < BAR_PRESETS.length - 1
    · simp [applyKey, nextBars, hc]
    · simp [applyKey, nextBars, hc]
  | down =>
    by_cases hc : 0 < (if s.active_bars ∈ BAR_PRESETS
        then BAR_PRESETS.indexOf s.active_bars else BAR_PRESETS.length - 1)
    · simp [applyKey, nextBars, hc]
    · simp [applyKey, nextBars, hc]

theorem nextBars_mem :
    ∀ ab ∈ BAR_PRESETS,
      nextBars ab BarKey.up ∈ BAR_PRESETS ∧
      nextBars ab BarKey.down ∈ BAR_PRESETS := by
  decide

theorem runKeys_cons (s : VizState) (k : BarKey) (ks : List BarKey) :
    runKeys s (k :: ks) = runKeys (applyKey s k) ks :=
  rfl

theorem runKeys_bars_mem (ks : List BarKey) :
    ∀ s : VizState, s.active_bars ∈ BAR_PRESETS →
      (runKeys s ks).active_bars ∈ BAR_PRESETS := by
  induction ks with
  | nil => exact fun s h => h
  | cons k ks ih =>
    intro s h
    rw [runKeys_cons]
    refine ih (applyKey s k) ?_
    rw [applyKey_active_bars]
    cases k with
    | up => exact (nextBars_mem s.active_bars h).1
    | down => exact (nextBars_mem s.active_bars h).2

theorem applyKey_zeroes_on_change (s : VizState) (k : BarKey)
    (h : (applyKey s k).active_bars ≠ s.active_bars) :
    (applyKey s k).bar_heights = List.replicate MAX_BARS 0 ∧
    (applyKey s k).target_heights = List.replicate MAX_BARS 0 := by
  cases k with
  | up =>
    by_cases hc : (if s.active_bars ∈ BAR_PRESETS
        then BAR_PRESETS.indexOf s.active_bars else 0)
          < BAR_PRESETS.length - 1
    · constructor <;> simp [applyKey, hc]
    · exact absurd (by simp [applyKey, hc]) h
  | down =>
    by_cases hc : 0 < (if s.active_bars ∈ BAR_PRESETS
        then BAR_PRESETS.indexOf s.active_bars else BAR_PRESETS.length - 1)
    · constructor <;> simp [applyKey, hc]
    · exact absurd (by simp [applyKey, hc]) h

/-- C10: starting from the initial bar count 96, every UP/DOWN key sequence
keeps the active bar count inside the preset set `{32, 64, 96, 128, 192,
256}`; a key press that changes the count zeroes both animation arrays; and
for every preset count the downsampling slice is well-formed: the bin size
`256 // active_bars` is positive, `active_bars * bin_size ≤ 256` so the
slice of a 256-bin frame has exactly `active_bars * bin_size` entries (the
reshape is valid), and the lookup returns exactly `active_bars` values. -/
theorem bar_presets_safe :
    (∀ ks : List BarKey, (runKeys initState ks).active_bars ∈ BAR_PRESETS) ∧
    (∀ (s : VizState) (k : BarKey),
      (applyKey s k).active_bars ≠ s.active_bars →
      (applyKey s k).bar_heights = List.replicate MAX_BARS 0 ∧
      (applyKey s k).target_heights = List.replicate MAX_BARS 0) ∧
    (∀ ab ∈ BAR_PRESETS, 0 < MAX_BARS / ab ∧
      ab * (MAX_BARS / ab) ≤ MAX_BARS ∧
      ∀ frame : List ℝ, frame.length = MAX_BARS →
        (frame.take (ab * (MAX_BARS / ab))).length = ab * (MAX_BARS / ab) ∧
        (downsample frame ab).length = ab) := by
  refine ⟨?_, applyKey_zeroes_on_change, ?_⟩
  · intro ks
    exact runKeys_bars_mem ks initState (by decide)
  · intro ab hab
    refine ⟨presets_bin_size_pos ab hab, ?_, ?_⟩
    · fin_cases hab <;> decide
    · intro frame hlen
      refine ⟨?_, downsample_length frame ab hlen⟩
      rw [List.length_take, hlen]
      have hle : ab * (MAX_BARS / ab) ≤ MAX_BARS := by
        fin_cases hab <;> decide
      exact min_eq_left hle

/-- Witness for C10: one UP key press from the initial state, and the
96-bar downsampling of a concrete 256-bin frame. -/
theorem bar_presets_safe_witness :
    (runKeys initState [BarKey.up]).active_bars ∈ BAR_PRESETS ∧
    ((applyKey initState BarKey.up).bar_heights
        = List.replicate MAX_BARS 0 ∧
      (applyKey initState BarKey.up).target_heights
        = List.replicate MAX_BARS 0) ∧
    (downsample (List.replicate MAX_BARS (0:ℝ)) 96).length = 96 :=
  ⟨bar_presets_safe.1 [BarKey.up],
   bar_presets_safe.2.1 initState BarKey.up (by decide),
   ((bar_presets_safe.2.2 96 (by decide)).2.2 (List.replicate MAX_BARS (0:ℝ))
      (by simp)).2⟩

end Musializer
